import Mathlib

/-!
# vectorTypeW15.c : column scatter with an MPI vector datatype

A shallow embedding of `src/vectorTypeW15.c`.  The C program has one function,
`main`, that every one of the MPI processes executes.  The embedding has three
layers.

* The MPI primitives the program calls (`MPI_Type_vector`, `MPI_Send`,
  `MPI_Recv`) as functions on explicit state: memory is a flat list of
  integers, the transport is the list `net` of messages handed over by a send
  and not yet consumed by a receive.
* The pieces of `main`: the fill loops (lines 69-74) are `fillMatrix`, the send
  loop (lines 81-83) is `sendLoop`, and `mainWith` is `main` with the state left
  by the fill loops as a parameter, so that a matrix can be put in place of the
  random fill.  `main` is `mainWith` applied to `fillMatrix`.
* The launcher (`launchWith`, `launch`): it runs `main` once for every rank.

Conventions.

* `int` values are `Int`; every arithmetic expression of the program stays far
  below `2^31`, so no wrap-around is modelled.  `%` is C remainder, `Int.tmod`.
* `rand()` is the stream `rnd : Nat → Int`: the call number `k` (from zero)
  returns `rnd k`.
* Objects that the program reads or overwrites without initialising them
  (`global_max`, `received`, `vec`) start with arbitrary content, `Indet`.
* `MPI_Send` is the buffered (eager) standard-mode send: it returns once the
  message is handed to the transport.  `MPI_Recv` blocks until a message with
  the requested source and tag, addressed to the caller, is available; a
  receive that can never be matched leaves the process `Status.blocked`.
* The transport may present the pending messages to a receive in any order:
  `deliver net` is the order in which `MPI_Recv` scans `net`.
* The launcher runs the ranks in increasing order.  Rank 0 is the only sender
  and never waits for another rank, so every blocking receive of another
  schedule is matched by the same message as in this one.
-/

namespace VectorTypeW15

/-! ## Constants of the C library -/

/-- The value of `EXIT_SUCCESS` in `stdlib.h`. -/
def EXIT_SUCCESS : Int := 0

/-- The value of `EXIT_FAILURE` in `stdlib.h`. -/
def EXIT_FAILURE : Int := 1

/-! ## MPI primitives -/

/-- One point-to-point message in the transport. -/
structure Msg where
  source : Nat
  dest : Nat
  tag : Int
  payload : List Int
deriving DecidableEq

/-- A vector datatype over `MPI_INT`: `count` blocks of `blocklength` elements,
the starts of consecutive blocks `stride` elements apart. -/
structure MPI_Datatype where
  count : Nat
  blocklength : Nat
  stride : Nat
deriving DecidableEq

/-- The call `MPI_Type_vector(count, blocklength, stride, MPI_INT, &t)`. -/
def MPI_Type_vector (count blocklength stride : Nat) : MPI_Datatype :=
  ⟨count, blocklength, stride⟩

/-- Type map of a vector datatype: the element displacements it selects, in the
order in which they are packed (block after block, element after element). -/
def MPI_Datatype.typemap (t : MPI_Datatype) : List Nat :=
  (List.range t.count).flatMap fun k =>
    (List.range t.blocklength).map fun b => k * t.stride + b

/-- Reads the cells of `mem` at the given flat offsets, in order.  A read
outside `mem` gives `none`. -/
def readAll (mem : List Int) : List Nat → Option (List Int)
  | [] => some []
  | o :: os =>
    match mem[o]? with
    | none => none
    | some v =>
      match readAll mem os with
      | none => none
      | some vs => some (v :: vs)

/-- The flat offsets of `mem` read when one instance of `t` is applied at the
element offset `base`. -/
def selected (base : Nat) (t : MPI_Datatype) : List Nat :=
  t.typemap.map fun d => base + d

/-- Packs one instance of the datatype `t` anchored at element `base`. -/
def pack (mem : List Int) (base : Nat) (t : MPI_Datatype) : Option (List Int) :=
  readAll mem (selected base t)

/-- The call `MPI_Send(&mem[base], 1, datatype, dest, tag, MPI_COMM_WORLD)` made
by rank `source` in a communicator of `size` processes.  An invalid destination
or a read outside `mem` gives `none`. -/
def MPI_Send (mem : List Int) (base : Nat) (datatype : MPI_Datatype)
    (source dest : Nat) (tag : Int) (size : Nat) (net : List Msg) : Option (List Msg) :=
  if dest < size then
    match pack mem base datatype with
    | some payload => some (net ++ [⟨source, dest, tag, payload⟩])
    | none => none
  else none

/-- Outcome of a blocking receive. -/
inductive RecvResult where
  | ok (buf : List Int) (net : List Msg)
  | blocked
  | truncated
deriving DecidableEq

/-- The message that a receive of rank `me` for (`source`, `tag`) matches: the
first one, in the order `view` of the transport, with that envelope. -/
def matchMsg (view : List Msg) (source : Nat) (tag : Int) (me : Nat) : Option Msg :=
  view.find? fun m => m.source == source && m.tag == tag && m.dest == me

/-- The call `MPI_Recv(buf, count, MPI_INT, source, tag, MPI_COMM_WORLD,
MPI_STATUS_IGNORE)` made by rank `me`.  The matched payload overwrites the
front of `buf`; a payload longer than `count` is the error `MPI_ERR_TRUNCATE`. -/
def MPI_Recv (view net : List Msg) (buf : List Int) (count source : Nat) (tag : Int)
    (me : Nat) : RecvResult :=
  match matchMsg view source tag me with
  | none => RecvResult.blocked
  | some m =>
    if m.payload.length ≤ count then
      RecvResult.ok (m.payload ++ buf.drop m.payload.length) (net.erase m)
    else RecvResult.truncated

/-! ## The program -/

/-- Calls and stores of a process, in program order. -/
inductive Event where
  | init
  | commSize
  | printf (format : String) (args : List Int)
  | abort (errorcode : Int)
  | commRank
  | rand
  | store (offset : Nat)
  | typeVector (count blocklength stride : Nat)
  | typeCommit
  | send (dest : Nat) (tag : Int)
  | recv (source : Nat) (tag : Int)
  | finalize
deriving DecidableEq

/-- How a process ends. -/
inductive Status where
  | exited (status : Int)
  | aborted (errorcode : Int)
  | blocked
  | fault
deriving DecidableEq

/-- What is observed of one process: how it ended, what it did, and the final
content of its buffer `received`. -/
structure Proc where
  status : Status
  events : List Event
  received : List Int
deriving DecidableEq

/-- Initial content of the objects the program does not initialise. -/
structure Indet where
  global_max : Int
  received : Nat → Int
  vec : Nat → Int

/-- The text printed when the process count is wrong (line 55). -/
def diagnostic : String := "This application is meant to be run with 12 processes.\n"

/-- State of the fill loops: the matrix `vec` as flat row-major memory, the
number of `rand()` calls made so far, and the events so far. -/
structure FillState where
  vec : List Int
  calls : Nat
  events : List Event
deriving DecidableEq

/-- Body of the inner loop, lines 71-72:
`vec[i][j] = rand() % 1001; printf("%d ", vec[i][j]);`. -/
def fillCell (rnd : Nat → Int) (i j : Nat) (s : FillState) : FillState :=
  let v := (rnd s.calls).tmod 1001
  { vec := s.vec.set (i * 12 + j) v
    calls := s.calls + 1
    events := s.events ++ [Event.rand, Event.store (i * 12 + j), Event.printf "%d " [v]] }

/-- The fill loops, lines 68-74, on `int vec[12][12]` of initial content `vec0`. -/
def fillMatrix (rnd : Nat → Int) (vec0 : Nat → Int) : FillState :=
  (List.range 12).foldl
    (fun s i => (List.range 12).foldl (fun s j => fillCell rnd i j s) s)
    ⟨(List.range 144).map vec0, 0, []⟩

/-- Line 64, `int n = 144 / size;`: the length of `received` and the count
of the receive. -/
def recvCount (size : Nat) : Nat := 144 / size

/-- The part of a process state that the send loop changes. -/
structure PState where
  net : List Msg
  events : List Event
deriving DecidableEq

/-- The send loop, lines 81-83, over the remaining values of `i`:
`MPI_Send(&vec[0][i], 1, column_type, i, 0, MPI_COMM_WORLD)`. -/
def sendLoop (size : Nat) (vec : List Int) (column_type : MPI_Datatype) (my_rank : Nat) :
    List Nat → PState → Option PState
  | [], s => some s
  | i :: rest, s =>
    match MPI_Send vec (0 * 12 + i) column_type my_rank i 0 size s.net with
    | none => none
    | some net => sendLoop size vec column_type my_rank rest ⟨net, s.events ++ [Event.send i 0]⟩

/-- The function `main` of rank `my_rank` among `size` processes, with the state
`fill` that the fill loops leave (used by rank 0 only, after the size check).
`net` is the transport when the process starts; the result is the observation
of the process and the transport it leaves.  The final `if (my_rank == 0)` of
line 91 is the `if` in the last branch.  An MPI error or a read outside `vec`
ends the process with `Status.fault` (the default MPI error handler is fatal),
and a receive that is never matched with `Status.blocked`. -/
def mainWith (fill : FillState) (size my_rank : Nat) (u : Indet)
    (deliver : List Msg → List Msg) (net : List Msg) : Proc × List Msg :=
  let ev := [Event.init, Event.commSize]
  if size ≠ 12 then
    (⟨Status.aborted EXIT_FAILURE,
      ev ++ [Event.printf diagnostic [], Event.abort EXIT_FAILURE], []⟩, net)
  else
    let ev := ev ++ [Event.commRank]
    let global_max := u.global_max
    let n := recvCount size
    let received := (List.range n).map u.received
    let r : Except (Status × PState) (List Int × PState) :=
      if my_rank = 0 then
        let vec := fill.vec
        let ev := ev ++ fill.events
        let column_type := MPI_Type_vector size 1 size
        let ev := ev ++ [Event.typeVector size 1 size, Event.typeCommit]
        match sendLoop size vec column_type my_rank (List.range size) ⟨net, ev⟩ with
        | none => Except.error (Status.fault, ⟨net, ev⟩)
        | some s =>
          match MPI_Recv (deliver s.net) s.net received n 0 0 my_rank with
          | RecvResult.ok buf net2 => Except.ok (buf, ⟨net2, s.events ++ [Event.recv 0 0]⟩)
          | RecvResult.blocked => Except.error (Status.blocked, ⟨s.net, s.events ++ [Event.recv 0 0]⟩)
          | RecvResult.truncated => Except.error (Status.fault, ⟨s.net, s.events ++ [Event.recv 0 0]⟩)
      else
        match MPI_Recv (deliver net) net received n 0 0 my_rank with
        | RecvResult.ok buf net2 => Except.ok (buf, ⟨net2, ev ++ [Event.recv 0 0]⟩)
        | RecvResult.blocked => Except.error (Status.blocked, ⟨net, ev ++ [Event.recv 0 0]⟩)
        | RecvResult.truncated => Except.error (Status.fault, ⟨net, ev ++ [Event.recv 0 0]⟩)
    match r with
    | Except.error (st, s) => (⟨st, s.events, received⟩, s.net)
    | Except.ok (received, s) =>
      let ev := if my_rank = 0 then s.events ++ [Event.printf "\nMAX: %d\n" [global_max]]
        else s.events
      (⟨Status.exited EXIT_SUCCESS, ev ++ [Event.finalize], received⟩, s.net)

/-- The function `main` of the program, lines 47-98. -/
def main (rnd : Nat → Int) (size my_rank : Nat) (u : Indet)
    (deliver : List Msg → List Msg) (net : List Msg) : Proc × List Msg :=
  mainWith (fillMatrix rnd u.vec) size my_rank u deliver net

/-! ## The launcher -/

/-- Runs the processes of the given ranks one after the other on a shared
transport; `acc` holds the observations so far and the transport. -/
def runRanks (proc : Nat → List Msg → Proc × List Msg) :
    List Nat → List Proc × List Msg → List Proc × List Msg
  | [], acc => acc
  | r :: rest, acc =>
    let p := proc r acc.2
    runRanks proc rest (acc.1 ++ [p.1], p.2)

/-- All `size` processes, with the given state in place of the fill loops of
rank 0.  Entry `r` of the result is the observation of rank `r`. -/
def launchWith (fill : FillState) (size : Nat) (u : Nat → Indet)
    (deliver : List Msg → List Msg) : List Proc :=
  (runRanks (fun r net => mainWith fill size r (u r) deliver net) (List.range size) ([], [])).1

/-- All `size` processes of the program. -/
def launch (rnd : Nat → Int) (size : Nat) (u : Nat → Indet)
    (deliver : List Msg → List Msg) : List Proc :=
  (runRanks (fun r net => main rnd size r (u r) deliver net) (List.range size) ([], [])).1

/-! ## Matrices -/

/-- Row-major storage of an `R × C` matrix: the rows one after the other. -/
def rowMajor (R C : Nat) (M : Nat → Nat → Int) : List Int :=
  (List.range R).flatMap fun i => (List.range C).map fun j => M i j

/-- Column `j` of a matrix with `R` rows, read top to bottom. -/
def column (R : Nat) (M : Nat → Nat → Int) (j : Nat) : List Int :=
  (List.range R).map fun k => M k j

/-- The element `vec[i][j]` of the C array `int vec[12][12]` held in flat
memory, `none` outside the memory. -/
def cell (vec : List Int) (i j : Nat) : Option Int :=
  vec[i * 12 + j]?


/-! ## Vocabulary of the properties -/

/-- The message of the send number `i` of root when `vec` holds the matrix `M`. -/
def columnMsg (M : Nat → Nat → Int) (i : Nat) : Msg :=
  ⟨0, i, 0, column 12 M i⟩

/-- The events of a complete run of rank 0, given the events of its fill loops
and the initial content of `global_max`. -/
def rootEvents (fillEv : List Event) (global_max : Int) : List Event :=
  [Event.init, Event.commSize, Event.commRank] ++ fillEv
    ++ [Event.typeVector 12 1 12, Event.typeCommit]
    ++ (List.range 12).map (fun i => Event.send i 0)
    ++ [Event.recv 0 0, Event.printf "\nMAX: %d\n" [global_max], Event.finalize]

/-- The events of a complete run of a rank other than 0. -/
def peerEvents : List Event :=
  [Event.init, Event.commSize, Event.commRank, Event.recv 0 0, Event.finalize]

/-- The observation of rank `r` in a complete run in which `vec` holds `M`. -/
def completed (M : Nat → Nat → Int) (fillEv : List Event) (u : Nat → Indet) (r : Nat) : Proc :=
  ⟨Status.exited EXIT_SUCCESS,
    if r = 0 then rootEvents fillEv (u 0).global_max else peerEvents,
    column 12 M r⟩


/-- The value stored by the fill call number `k`. -/
def fillValue (rnd : Nat → Int) (k : Nat) : Int := (rnd k).tmod 1001

/-- The events of the fill call number `k`. -/
def fillEvents (rnd : Nat → Int) (k : Nat) : List Event :=
  [Event.rand, Event.store k, Event.printf "%d " [fillValue rnd k]]

/-- One cell of the fill loops, by flat cell number. -/
def fillStep (rnd : Nat → Int) (s : FillState) (k : Nat) : FillState :=
  fillCell rnd (k / 12) (k % 12) s

/-- The matrix that the fill loops build from the stream `rnd`. -/
def randMatrix (rnd : Nat → Int) (i j : Nat) : Int := fillValue rnd (i * 12 + j)

/-- The flat offsets of the stores to `vec` among the events, in order. -/
def storeOffsets (evs : List Event) : List Nat :=
  evs.filterMap fun e =>
    match e with
    | Event.store o => some o
    | _ => none

/-- The integers printed after the label `MAX:` among the events, in order. -/
def printedSummary (evs : List Event) : List Int :=
  evs.filterMap fun e =>
    match e with
    | Event.printf format [v] => if format = "\nMAX: %d\n" then some v else none
    | _ => none

/-- Events that generate matrix cells, build the datatype, or communicate. -/
def Event.isDataOp : Event → Bool
  | Event.rand => true
  | Event.store _ => true
  | Event.typeVector _ _ _ => true
  | Event.typeCommit => true
  | Event.send _ _ => true
  | Event.recv _ _ => true
  | _ => false

/-- The largest element of a nonempty buffer, `none` for an empty one. -/
def maxOf : List Int → Option Int
  | [] => none
  | x :: xs => some (xs.foldl max x)

/-- A matrix used in examples: `M[i][j] = i * 12 + j`. -/
def rampMatrix (i j : Nat) : Int := (i : Int) * 12 + j

/-- A stream used in examples: the call number `k` returns `k`. -/
def rampStream (k : Nat) : Int := k

/-- A matrix used in examples: it agrees with `rampMatrix` on column 3 and is
zero elsewhere. -/
def rampColumn3 (i j : Nat) : Int := if j = 3 then rampMatrix i j else 0

/-- Initial contents used in examples. -/
def zeroIndet (_ : Nat) : Indet := ⟨0, fun _ => 0, fun _ => 0⟩

/-! ## The fill loops -/

/-- A loop nest is one loop over the pairs of indices in lexicographic order. -/
theorem foldl_nest {S α β : Type} (f : α → β → S → S) (ys : List β) (xs : List α) (s : S) :
    xs.foldl (fun s i => ys.foldl (fun s j => f i j s) s) s
      = (xs.flatMap fun i => ys.map fun j => (i, j)).foldl (fun s p => f p.1 p.2 s) s := by
  induction xs generalizing s with
  | nil => rfl
  | cons x xs ih =>
    simp only [List.foldl_cons, List.flatMap_cons, List.foldl_append, List.foldl_map]
    exact ih _

/-- The index pairs of the 12 by 12 loop nest, in the order of execution. -/
theorem pairs_eq :
    ((List.range 12).flatMap fun i => (List.range 12).map fun j => (i, j))
      = (List.range 144).map fun k => (k / 12, k % 12) := by
  decide

/-- The fill loops as one loop over the flat cell number. -/
theorem fillMatrix_flat (rnd : Nat → Int) (vec0 : Nat → Int) :
    fillMatrix rnd vec0
      = (List.range 144).foldl (fillStep rnd) ⟨(List.range 144).map vec0, 0, []⟩ := by
  unfold fillMatrix
  rw [foldl_nest (fun i j s => fillCell rnd i j s), pairs_eq, List.foldl_map]
  rfl

theorem fillStep_eq (rnd : Nat → Int) (s : FillState) (k : Nat) :
    fillStep rnd s k
      = ⟨s.vec.set k (fillValue rnd s.calls), s.calls + 1,
          s.events ++ [Event.rand, Event.store k, Event.printf "%d " [fillValue rnd s.calls]]⟩ := by
  have hidx : k / 12 * 12 + k % 12 = k := by omega
  simp only [fillStep, fillCell, hidx, fillValue]

/-- State of the fill loops after the first `n` cells. -/
theorem fill_upto (rnd : Nat → Int) (v : List Int) (hv : v.length = 144) (n : Nat) :
    ((List.range n).foldl (fillStep rnd) ⟨v, 0, []⟩).calls = n
    ∧ ((List.range n).foldl (fillStep rnd) ⟨v, 0, []⟩).vec.length = 144
    ∧ (∀ k, k < n → k < 144 →
        ((List.range n).foldl (fillStep rnd) ⟨v, 0, []⟩).vec[k]? = some (fillValue rnd k))
    ∧ ((List.range n).foldl (fillStep rnd) ⟨v, 0, []⟩).events
        = (List.range n).flatMap (fillEvents rnd) := by
  induction n with
  | zero => simp [hv]
  | succ n ih =>
    rw [List.range_succ, List.foldl_append]
    generalize (List.range n).foldl (fillStep rnd) ⟨v, 0, []⟩ = s at ih ⊢
    obtain ⟨hc, hl, hs, he⟩ := ih
    simp only [List.foldl_cons, List.foldl_nil, fillStep_eq, List.length_set,
      List.flatMap_append, List.flatMap_cons, List.flatMap_nil, List.append_nil]
    refine ⟨by omega, hl, ?_, ?_⟩
    · intro k hk hk2
      by_cases hkn : k = n
      · subst hkn
        rw [List.getElem?_set_self (by omega), hc]
      · rw [List.getElem?_set_ne (fun h => hkn h.symm)]
        exact hs k (by omega) hk2
    · rw [he, hc]; rfl

/-- The matrix left by the fill loops: cell number `k` holds `rand() % 1001` of
the call number `k`. -/
theorem fillMatrix_vec (rnd : Nat → Int) (vec0 : Nat → Int) :
    (fillMatrix rnd vec0).vec = (List.range 144).map (fillValue rnd) := by
  rw [fillMatrix_flat]
  obtain ⟨_, hl, hs, _⟩ :=
    fill_upto rnd ((List.range 144).map vec0) (by rw [List.length_map, List.length_range]) 144
  apply List.ext_getElem?
  intro k
  by_cases hk : k < 144
  · rw [hs k hk hk, List.getElem?_map, List.getElem?_range hk]; rfl
  · rw [List.getElem?_eq_none (by omega),
      List.getElem?_eq_none (by rw [List.length_map, List.length_range]; omega)]

theorem fillMatrix_events (rnd : Nat → Int) (vec0 : Nat → Int) :
    (fillMatrix rnd vec0).events = (List.range 144).flatMap (fillEvents rnd) := by
  rw [fillMatrix_flat]
  exact (fill_upto rnd ((List.range 144).map vec0)
    (by rw [List.length_map, List.length_range]) 144).2.2.2

theorem fillMatrix_calls (rnd : Nat → Int) (vec0 : Nat → Int) :
    (fillMatrix rnd vec0).calls = 144 := by
  rw [fillMatrix_flat]
  exact (fill_upto rnd ((List.range 144).map vec0)
    (by rw [List.length_map, List.length_range]) 144).1

/-! ## The vector datatype on row-major storage -/

theorem typemap_block1 (R C : Nat) :
    (MPI_Type_vector R 1 C).typemap = (List.range R).map fun k => k * C := by
  have h1 : List.range 1 = [0] := rfl
  simp only [MPI_Datatype.typemap, MPI_Type_vector, h1, List.map_cons, List.map_nil,
    Nat.add_zero]
  induction (List.range R) with
  | nil => rfl
  | cons x xs ih => simp only [List.flatMap_cons, List.map_cons, ih, List.singleton_append]

theorem selected_block1 (base R C : Nat) :
    selected base (MPI_Type_vector R 1 C) = (List.range R).map fun k => base + k * C := by
  rw [selected, typemap_block1, List.map_map]
  rfl

theorem readAll_map {α : Type} (mem : List Int) (f : α → Nat) (g : α → Int) (l : List α)
    (h : ∀ x, x ∈ l → mem[f x]? = some (g x)) :
    readAll mem (l.map f) = some (l.map g) := by
  induction l with
  | nil => rfl
  | cons x xs ih =>
    have hx := h x (List.mem_cons_self x xs)
    have hxs := ih fun y hy => h y (List.mem_cons_of_mem x hy)
    simp only [List.map_cons, readAll, hx, hxs]

theorem rowMajor_length (R C : Nat) (M : Nat → Nat → Int) :
    (rowMajor R C M).length = R * C := by
  induction R with
  | zero => simp [rowMajor]
  | succ R ih =>
    unfold rowMajor at ih ⊢
    rw [List.range_succ, List.flatMap_append, List.length_append, ih]
    simp [Nat.succ_mul]

/-- The flat cell `i * C + j` of a row-major matrix is its element `(i, j)`. -/
theorem rowMajor_getElem? (R C : Nat) (M : Nat → Nat → Int) (i j : Nat) (hi : i < R)
    (hj : j < C) : (rowMajor R C M)[i * C + j]? = some (M i j) := by
  induction R with
  | zero => omega
  | succ R ih =>
    have hlen := rowMajor_length R C M
    unfold rowMajor at ih hlen ⊢
    rw [List.range_succ, List.flatMap_append]
    by_cases hiR : i < R
    · have hlt : i * C + j < R * C := by
        calc i * C + j < i * C + C := by omega
          _ = (i + 1) * C := by rw [Nat.succ_mul]
          _ ≤ R * C := Nat.mul_le_mul_right C hiR
      rw [List.getElem?_append_left (by rw [hlen]; exact hlt)]
      exact ih hiR
    · have hiR2 : i = R := by omega
      subst hiR2
      rw [List.getElem?_append_right (by rw [hlen]; omega), hlen]
      simp [hj]

/-- One instance of the column datatype at element `(0, j)` packs column `j`. -/
theorem pack_column (R C : Nat) (M : Nat → Nat → Int) (j : Nat) (hj : j < C) :
    pack (rowMajor R C M) (0 * C + j) (MPI_Type_vector R 1 C) = some (column R M j) := by
  rw [pack, selected_block1]
  apply readAll_map
  intro k hk
  rw [List.mem_range] at hk
  rw [Nat.zero_mul, Nat.zero_add, Nat.add_comm]
  exact rowMajor_getElem? R C M k j hk hj

theorem column_length (R : Nat) (M : Nat → Nat → Int) (j : Nat) :
    (column R M j).length = R := by
  simp [column]

/-! ## The exchange -/

theorem sendLoop_ok (M : Nat → Nat → Int) (l : List Nat) (h : ∀ i, i ∈ l → i < 12) (s : PState) :
    sendLoop 12 (rowMajor 12 12 M) (MPI_Type_vector 12 1 12) 0 l s
      = some ⟨s.net ++ l.map (columnMsg M), s.events ++ l.map (fun i => Event.send i 0)⟩ := by
  induction l generalizing s with
  | nil => simp [sendLoop]
  | cons i rest ih =>
    have hi : i < 12 := h i (List.mem_cons_self i rest)
    have hp := pack_column 12 12 M i hi
    simp only [sendLoop, MPI_Send, hi, if_true, hp]
    rw [ih (fun j hj => h j (List.mem_cons_of_mem i hj))]
    simp [columnMsg]

/-- Among the column messages of the ranks `rs`, in any order, the receive of
rank `r` matches the message built from column `r`. -/
theorem matchMsg_perm (M : Nat → Nat → Int) (view : List Msg) (rs : List Nat) (r : Nat)
    (hview : view.Perm (rs.map (columnMsg M))) (hr : r ∈ rs) :
    matchMsg view 0 0 r = some (columnMsg M r) := by
  unfold matchMsg
  cases hf : view.find? (fun m => m.source == 0 && m.tag == 0 && m.dest == r) with
  | none =>
    rw [List.find?_eq_none] at hf
    have hmem : columnMsg M r ∈ view := hview.mem_iff.mpr (List.mem_map_of_mem _ hr)
    exact absurd (by simp [columnMsg]) (hf _ hmem)
  | some m =>
    have hm : m ∈ view := List.mem_of_find?_eq_some hf
    have hp := List.find?_some hf
    obtain ⟨j, _, hj⟩ := List.mem_map.mp (hview.mem_iff.mp hm)
    subst hj
    simp [columnMsg] at hp
    rw [hp]

theorem recv_ok (M : Nat → Nat → Int) (deliver : List Msg → List Msg)
    (hd : ∀ l, (deliver l).Perm l) (net : List Msg) (rs : List Nat) (r : Nat)
    (hnet : net.Perm (rs.map (columnMsg M))) (hr : r ∈ rs) (buf : List Int)
    (hbuf : buf.length = 12) :
    MPI_Recv (deliver net) net buf 12 0 0 r
      = RecvResult.ok (column 12 M r) (net.erase (columnMsg M r)) := by
  have hm := matchMsg_perm M (deliver net) rs r ((hd net).trans hnet) hr
  simp only [MPI_Recv, hm]
  have hlen : (columnMsg M r).payload.length = 12 := column_length 12 M r
  rw [hlen, List.drop_of_length_le (by omega)]
  simp [columnMsg]

theorem buffer_length (f : Nat → Int) : ((List.range 12).map f).length = 12 := by
  simp

theorem mainWith_root (fill : FillState) (M : Nat → Nat → Int) (u : Indet)
    (deliver : List Msg → List Msg) (hfill : fill.vec = rowMajor 12 12 M)
    (hd : ∀ l, (deliver l).Perm l) :
    mainWith fill 12 0 u deliver []
      = (⟨Status.exited EXIT_SUCCESS, rootEvents fill.events u.global_max, column 12 M 0⟩,
          (List.range' 1 11).map (columnMsg M)) := by
  have hrange : List.range 12 = 0 :: List.range' 1 11 := by decide
  have hsend := sendLoop_ok M (List.range 12) (fun i hi => List.mem_range.mp hi)
    ⟨[], [Event.init, Event.commSize] ++ [Event.commRank] ++ fill.events
      ++ [Event.typeVector 12 1 12, Event.typeCommit]⟩
  have hrecv := recv_ok M deliver hd ([] ++ (List.range 12).map (columnMsg M)) (List.range 12) 0
    (by rw [List.nil_append]) (by simp) ((List.range 12).map u.received)
    (buffer_length _)
  have hn : recvCount 12 = 12 := rfl
  unfold mainWith
  simp only [ne_eq, not_true_eq_false, if_false, if_true, hfill, hsend, hn, hrecv]
  simp only [hrange, List.nil_append, List.map_cons, List.erase_cons_head, rootEvents,
    List.append_assoc, List.cons_append]

theorem mainWith_peer (fill : FillState) (M : Nat → Nat → Int) (u : Indet)
    (deliver : List Msg → List Msg) (hd : ∀ l, (deliver l).Perm l) (net : List Msg)
    (rs : List Nat) (r : Nat) (hr : r ≠ 0) (hnet : net.Perm ((r :: rs).map (columnMsg M))) :
    mainWith fill 12 r u deliver net
      = (⟨Status.exited EXIT_SUCCESS, peerEvents, column 12 M r⟩,
          net.erase (columnMsg M r)) := by
  have hrecv := recv_ok M deliver hd net (r :: rs) r hnet (List.mem_cons_self r rs)
    ((List.range 12).map u.received) (buffer_length _)
  have hn : recvCount 12 = 12 := rfl
  unfold mainWith
  simp only [ne_eq, not_true_eq_false, if_false, hr, hn, hrecv]
  rfl

theorem runRanks_cons (proc : Nat → List Msg → Proc × List Msg) (r : Nat) (rest : List Nat)
    (acc : List Proc) (net : List Msg) :
    runRanks proc (r :: rest) (acc, net)
      = runRanks proc rest (acc ++ [(proc r net).1], (proc r net).2) := rfl

theorem runRanks_peers (fill : Nat → FillState) (M : Nat → Nat → Int) (u : Nat → Indet)
    (deliver : List Msg → List Msg) (hd : ∀ l, (deliver l).Perm l) (rs : List Nat)
    (hrs : ∀ r, r ∈ rs → r ≠ 0) (acc : List Proc) (net : List Msg)
    (hnet : net.Perm (rs.map (columnMsg M))) :
    (runRanks (fun r net => mainWith (fill r) 12 r (u r) deliver net) rs (acc, net)).1
      = acc ++ rs.map (fun r => ⟨Status.exited EXIT_SUCCESS, peerEvents, column 12 M r⟩) := by
  induction rs generalizing acc net with
  | nil => simp [runRanks]
  | cons r rest ih =>
    have hstep := mainWith_peer (fill r) M (u r) deliver hd net rest r
      (hrs r (List.mem_cons_self r rest)) hnet
    have hnext : (net.erase (columnMsg M r)).Perm (rest.map (columnMsg M)) := by
      have h := hnet.erase (columnMsg M r)
      rwa [List.map_cons, List.erase_cons_head] at h
    rw [runRanks_cons, hstep]
    rw [ih (fun x hx => hrs x (List.mem_cons_of_mem r hx)) _ _ hnext]
    simp

/-- A run of 12 processes completes: every rank exits with its column.  Only
the fill state of rank 0 matters. -/
theorem run_12 (fill : Nat → FillState) (M : Nat → Nat → Int) (u : Nat → Indet)
    (deliver : List Msg → List Msg) (hfill : (fill 0).vec = rowMajor 12 12 M)
    (hd : ∀ l, (deliver l).Perm l) :
    (runRanks (fun r net => mainWith (fill r) 12 r (u r) deliver net) (List.range 12) ([], [])).1
      = (List.range 12).map (completed M (fill 0).events u) := by
  have hrange : List.range 12 = 0 :: List.range' 1 11 := by decide
  rw [hrange, runRanks_cons, mainWith_root (fill 0) M (u 0) deliver hfill hd]
  rw [runRanks_peers fill M u deliver hd (List.range' 1 11)
    (fun r hr => by rw [List.mem_range'_1] at hr; omega) _ _ (List.Perm.refl _)]
  simp only [List.nil_append, List.map_cons, completed, if_true, List.singleton_append,
    List.cons.injEq, true_and]
  apply List.map_congr_left
  intro r hr
  rw [List.mem_range'_1] at hr
  have : r ≠ 0 := by omega
  simp only [completed, this, if_false]

theorem launchWith_12_get (fill : FillState) (M : Nat → Nat → Int) (u : Nat → Indet)
    (deliver : List Msg → List Msg) (hfill : fill.vec = rowMajor 12 12 M)
    (hd : ∀ l, (deliver l).Perm l) (i : Nat) (hi : i < 12) :
    (launchWith fill 12 u deliver)[i]? = some (completed M fill.events u i) := by
  unfold launchWith
  rw [run_12 (fun _ => fill) M u deliver hfill hd, List.getElem?_map, List.getElem?_range hi]
  rfl

/-- The matrix left by the fill loops is the row-major storage of `randMatrix`. -/
theorem fillMatrix_rowMajor (rnd : Nat → Int) (vec0 : Nat → Int) :
    (fillMatrix rnd vec0).vec = rowMajor 12 12 (randMatrix rnd) := by
  rw [fillMatrix_vec]
  apply List.ext_getElem?
  intro k
  by_cases hk : k < 144
  · have hidx : k / 12 * 12 + k % 12 = k := by omega
    rw [List.getElem?_map, List.getElem?_range hk]
    conv_rhs => rw [← hidx]
    rw [rowMajor_getElem? 12 12 (randMatrix rnd) (k / 12) (k % 12) (by omega) (by omega)]
    simp only [randMatrix, hidx, Option.map_some']
  · rw [List.getElem?_eq_none (by rw [List.length_map, List.length_range]; omega),
      List.getElem?_eq_none (by rw [rowMajor_length]; omega)]

theorem launch_12_get (rnd : Nat → Int) (u : Nat → Indet) (deliver : List Msg → List Msg)
    (hd : ∀ l, (deliver l).Perm l) (i : Nat) (hi : i < 12) :
    (launch rnd 12 u deliver)[i]?
      = some (completed (randMatrix rnd) (fillMatrix rnd (u 0).vec).events u i) := by
  unfold launch main
  rw [run_12 (fun r => fillMatrix rnd (u r).vec) (randMatrix rnd) u deliver
    (fillMatrix_rowMajor rnd (u 0).vec) hd, List.getElem?_map, List.getElem?_range hi]
  rfl

/-! ## The size check -/

theorem mainWith_abort (fill : FillState) (size my_rank : Nat) (u : Indet)
    (deliver : List Msg → List Msg) (net : List Msg) (h : size ≠ 12) :
    mainWith fill size my_rank u deliver net
      = (⟨Status.aborted EXIT_FAILURE,
          [Event.init, Event.commSize, Event.printf diagnostic [], Event.abort EXIT_FAILURE],
          []⟩, net) := by
  unfold mainWith
  simp only [ne_eq, h, not_false_eq_true, if_true, List.cons_append, List.nil_append]

theorem mainWith_12_status (fill : FillState) (my_rank : Nat) (u : Indet)
    (deliver : List Msg → List Msg) (net : List Msg) (c : Int) :
    (mainWith fill 12 my_rank u deliver net).1.status ≠ Status.aborted c := by
  unfold mainWith
  simp only [ne_eq, not_true_eq_false, if_false]
  by_cases hr : my_rank = 0
  · simp only [hr, if_true]
    generalize sendLoop _ _ _ _ _ _ = sr
    cases sr with
    | none => simp
    | some s =>
      simp only []
      generalize MPI_Recv _ _ _ _ _ _ _ = res
      cases res <;> simp
  · simp only [hr, if_false]
    generalize MPI_Recv _ _ _ _ _ _ _ = res
    cases res <;> simp

theorem runRanks_abort (fill : Nat → FillState) (size : Nat) (u : Nat → Indet)
    (deliver : List Msg → List Msg) (h : size ≠ 12) (rs : List Nat) (acc : List Proc)
    (net : List Msg) :
    (runRanks (fun r net => mainWith (fill r) size r (u r) deliver net) rs (acc, net)).1
      = acc ++ rs.map (fun _ => ⟨Status.aborted EXIT_FAILURE,
          [Event.init, Event.commSize, Event.printf diagnostic [], Event.abort EXIT_FAILURE],
          []⟩) := by
  induction rs generalizing acc net with
  | nil => simp [runRanks]
  | cons r rest ih =>
    rw [runRanks_cons, mainWith_abort (fill r) size r (u r) deliver net h, ih]
    simp

/-! ## Events and bounds -/

theorem storeOffsets_fill (rnd : Nat → Int) (l : List Nat) :
    storeOffsets (l.flatMap (fillEvents rnd)) = l := by
  induction l with
  | nil => rfl
  | cons k rest ih =>
    unfold storeOffsets at ih ⊢
    rw [List.flatMap_cons, List.filterMap_append, ih]
    rfl

theorem printedSummary_fill (rnd : Nat → Int) (l : List Nat) :
    printedSummary (l.flatMap (fillEvents rnd)) = [] := by
  induction l with
  | nil => rfl
  | cons k rest ih =>
    unfold printedSummary at ih ⊢
    rw [List.flatMap_cons, List.filterMap_append, ih]
    rfl

theorem printedSummary_sends (l : List Nat) :
    printedSummary (l.map fun i => Event.send i 0) = [] := by
  induction l with
  | nil => rfl
  | cons k rest ih =>
    unfold printedSummary at ih ⊢
    rw [List.map_cons, List.filterMap_cons, ih]

theorem printedSummary_root (fillEv : List Event) (g : Int) (h : printedSummary fillEv = []) :
    printedSummary (rootEvents fillEv g) = [g] := by
  have hs := printedSummary_sends (List.range 12)
  unfold printedSummary at h hs ⊢
  unfold rootEvents
  simp only [List.filterMap_append, h, hs]
  rfl

theorem fillValue_range (rnd : Nat → Int) (h : ∀ k, 0 ≤ rnd k) (k : Nat) :
    0 ≤ fillValue rnd k ∧ fillValue rnd k ≤ 1000 := by
  unfold fillValue
  have h1 := Int.tmod_nonneg (1001 : Int) (h k)
  have h2 := Int.tmod_lt_of_pos (rnd k) (by decide : (0 : Int) < 1001)
  omega

theorem readAll_isSome (mem : List Int) (os : List Nat) (h : ∀ o, o ∈ os → o < mem.length) :
    (readAll mem os).isSome = true := by
  induction os with
  | nil => rfl
  | cons o rest ih =>
    have ho : o < mem.length := h o (List.mem_cons_self o rest)
    have hr := ih fun x hx => h x (List.mem_cons_of_mem o hx)
    obtain ⟨vs, hvs⟩ := Option.isSome_iff_exists.mp hr
    simp only [readAll, List.getElem?_eq_getElem ho, hvs, Option.isSome_some]

theorem typemap_length (count blocklength stride : Nat) :
    (MPI_Type_vector count blocklength stride).typemap.length = count * blocklength := by
  unfold MPI_Datatype.typemap MPI_Type_vector
  simp only
  induction count with
  | zero => simp
  | succ n ih =>
    rw [List.range_succ, List.flatMap_append, List.length_append, ih]
    simp [Nat.succ_mul]

theorem recvCount_eq_iff (size : Nat) (hpos : 0 < size) : recvCount size = size ↔ size = 12 := by
  unfold recvCount
  constructor
  · intro h
    by_cases hle : size ≤ 144
    · interval_cases size <;> simp_all
    · rw [Nat.div_eq_of_lt (by omega)] at h
      omega
  · rintro rfl
    rfl

theorem recv_length (view net : List Msg) (buf : List Int) (count source : Nat) (tag : Int)
    (me : Nat) (b : List Int) (n : List Msg) (hbuf : buf.length = count)
    (h : MPI_Recv view net buf count source tag me = RecvResult.ok b n) : b.length = count := by
  unfold MPI_Recv at h
  cases hm : matchMsg view source tag me with
  | none => simp [hm] at h
  | some m =>
    simp only [hm] at h
    split at h
    · rename_i hle
      injection h with h1 _
      rw [← h1, List.length_append, List.length_drop]
      omega
    · simp at h

/-- With 12 processes the buffer `received` always has 12 elements. -/
theorem mainWith_12_length (fill : FillState) (my_rank : Nat) (u : Indet)
    (deliver : List Msg → List Msg) (net : List Msg) :
    (mainWith fill 12 my_rank u deliver net).1.received.length = 12 := by
  have hn : recvCount 12 = 12 := rfl
  unfold mainWith
  simp only [ne_eq, not_true_eq_false, if_false, hn]
  by_cases hr : my_rank = 0
  · simp only [hr, if_true]
    generalize sendLoop _ _ _ _ _ _ = sr
    cases sr with
    | none => simp
    | some s =>
      simp only []
      cases hres : MPI_Recv (deliver s.net) s.net ((List.range 12).map u.received) 12 0 0 0 with
      | ok b n => simpa using recv_length _ _ _ _ _ _ _ b n (by simp) hres
      | blocked => simp
      | truncated => simp
  · simp only [hr, if_false]
    cases hres : MPI_Recv (deliver net) net ((List.range 12).map u.received) 12 0 0 my_rank with
    | ok b n => simpa using recv_length _ _ _ _ _ _ _ b n (by simp) hres
    | blocked => simp
    | truncated => simp

/-! ## Properties of the specification -/

/-- C2, descriptor correctness: on an `R × C` matrix `M` stored row-major, the
vector datatype with `R` blocks of length 1 and stride `C`, applied once at the
element `(0, j)` with `j < C`, reads the flat offsets `j + k * C` for
`k = 0 .. R-1` in this order, each of them holds `M[k][j]`, and the packed
payload is exactly `M[0][j], M[1][j], ..., M[R-1][j]`. -/
theorem descriptor_correct (R C : Nat) (M : Nat → Nat → Int) (j : Nat) (hj : j < C) :
    selected (0 * C + j) (MPI_Type_vector R 1 C) = (List.range R).map (fun k => j + k * C)
    ∧ (∀ k, k < R → (rowMajor R C M)[j + k * C]? = some (M k j))
    ∧ pack (rowMajor R C M) (0 * C + j) (MPI_Type_vector R 1 C)
        = some ((List.range R).map fun k => M k j) := by
  refine ⟨?_, ?_, pack_column R C M j hj⟩
  · rw [selected_block1, Nat.zero_mul, Nat.zero_add]
  · intro k hk
    rw [Nat.add_comm]
    exact rowMajor_getElem? R C M k j hk hj

theorem descriptor_correct_witness :
    selected (0 * 3 + 1) (MPI_Type_vector 3 1 3) = (List.range 3).map (fun k => 1 + k * 3)
    ∧ (∀ k, k < 3 → (rowMajor 3 3 rampMatrix)[1 + k * 3]? = some (rampMatrix k 1))
    ∧ pack (rowMajor 3 3 rampMatrix) (0 * 3 + 1) (MPI_Type_vector 3 1 3)
        = some ((List.range 3).map fun k => rampMatrix k 1) :=
  descriptor_correct 3 3 rampMatrix 1 (by decide)

/-- C1, delivery correctness: for every 12 by 12 matrix `M` held by root and
every rank `i < 12`, whatever the order in which the transport presents the
pending messages, rank `i` exits normally and its buffer `received` is
`[M[0][i], M[1][i], ..., M[11][i]]`; this covers `i = 0`.  The same holds for the
program with its own fill: the buffer of rank `i` is column `i` of the `vec`
that root filled, element for element in row order. -/
theorem delivery_correct (M : Nat → Nat → Int) (calls : Nat) (fillEv : List Event)
    (rnd : Nat → Int) (u : Nat → Indet) (deliver : List Msg → List Msg)
    (hd : ∀ l, (deliver l).Perm l) (i : Nat) (hi : i < 12) :
    ((launchWith ⟨rowMajor 12 12 M, calls, fillEv⟩ 12 u deliver)[i]?).map Proc.received
        = some [M 0 i, M 1 i, M 2 i, M 3 i, M 4 i, M 5 i, M 6 i, M 7 i, M 8 i, M 9 i,
            M 10 i, M 11 i]
    ∧ ((launchWith ⟨rowMajor 12 12 M, calls, fillEv⟩ 12 u deliver)[i]?).map Proc.status
        = some (Status.exited EXIT_SUCCESS)
    ∧ ∃ buf, ((launch rnd 12 u deliver)[i]?).map Proc.received = some buf
        ∧ buf.map some
            = (List.range 12).map (fun k => cell (fillMatrix rnd (u 0).vec).vec k i) := by
  refine ⟨?_, ?_, column 12 (randMatrix rnd) i, ?_, ?_⟩
  · rw [launchWith_12_get _ M u deliver rfl hd i hi]
    rfl
  · rw [launchWith_12_get _ M u deliver rfl hd i hi]
    rfl
  · rw [launch_12_get rnd u deliver hd i hi]
    rfl
  · rw [fillMatrix_rowMajor, column, List.map_map]
    apply List.map_congr_left
    intro k hk
    rw [List.mem_range] at hk
    exact (rowMajor_getElem? 12 12 (randMatrix rnd) k i hk hi).symm

theorem delivery_correct_witness :
    ((launchWith ⟨rowMajor 12 12 rampMatrix, 0, []⟩ 12 zeroIndet List.reverse)[0]?).map
        Proc.received
        = some [rampMatrix 0 0, rampMatrix 1 0, rampMatrix 2 0, rampMatrix 3 0, rampMatrix 4 0,
            rampMatrix 5 0, rampMatrix 6 0, rampMatrix 7 0, rampMatrix 8 0, rampMatrix 9 0,
            rampMatrix 10 0, rampMatrix 11 0]
    ∧ ((launchWith ⟨rowMajor 12 12 rampMatrix, 0, []⟩ 12 zeroIndet List.reverse)[0]?).map
        Proc.status = some (Status.exited EXIT_SUCCESS)
    ∧ ∃ buf, ((launch rampStream 12 zeroIndet List.reverse)[0]?).map Proc.received = some buf
        ∧ buf.map some
            = (List.range 12).map
                (fun k => cell (fillMatrix rampStream (zeroIndet 0).vec).vec k 0) :=
  delivery_correct rampMatrix 0 [] rampStream zeroIndet List.reverse
    (fun l => List.reverse_perm l) 0 (by decide)

/-- C4, end-to-end example: with `M[i][j] = i * 12 + j` in place of the random
fill (and equally when `rand()` returns 0, 1, 2, ... so that the fill itself
builds this matrix), the buffer received by rank 5 is
`[5, 17, 29, 41, 53, 65, 77, 89, 101, 113, 125, 137]`. -/
theorem example_rank5 (calls : Nat) (fillEv : List Event) (u : Nat → Indet)
    (deliver : List Msg → List Msg) (hd : ∀ l, (deliver l).Perm l) :
    ((launchWith ⟨rowMajor 12 12 rampMatrix, calls, fillEv⟩ 12 u deliver)[5]?).map Proc.received
        = some [5, 17, 29, 41, 53, 65, 77, 89, 101, 113, 125, 137]
    ∧ ((launch rampStream 12 u deliver)[5]?).map Proc.received
        = some [5, 17, 29, 41, 53, 65, 77, 89, 101, 113, 125, 137] := by
  constructor
  · rw [launchWith_12_get _ rampMatrix u deliver rfl hd 5 (by decide)]
    show some (column 12 rampMatrix 5) = _
    decide
  · rw [launch_12_get rampStream u deliver hd 5 (by decide)]
    show some (column 12 (randMatrix rampStream) 5) = _
    decide

theorem example_rank5_witness :
    ((launchWith ⟨rowMajor 12 12 rampMatrix, 0, []⟩ 12 zeroIndet id)[5]?).map Proc.received
        = some [5, 17, 29, 41, 53, 65, 77, 89, 101, 113, 125, 137]
    ∧ ((launch rampStream 12 zeroIndet id)[5]?).map Proc.received
        = some [5, 17, 29, 41, 53, 65, 77, 89, 101, 113, 125, 137] :=
  example_rank5 0 [] zeroIndet id (fun l => List.Perm.refl l)

/-- C5, no cross-talk: the 12 sends of root put one message per destination in
the transport; in every order `view` of these messages the receive of rank `i`
(source 0, tag 0) matches the message built from column `i`, never the one
addressed to another rank `j`; in every launch, whatever the delivery order,
the buffer of rank `i` is column `i`, it is the same for any other matrix that
agrees with `M` on column `i`, and it differs from every column `j ≠ i` whose
content differs from column `i`. -/
theorem no_cross_talk (M M' : Nat → Nat → Int) (calls calls' : Nat) (fillEv fillEv' : List Event)
    (u u' : Nat → Indet) (deliver deliver' : List Msg → List Msg)
    (hd : ∀ l, (deliver l).Perm l) (hd' : ∀ l, (deliver' l).Perm l)
    (view : List Msg) (i j : Nat) (hi : i < 12) (hij : j ≠ i)
    (hview : view.Perm ((List.range 12).map (columnMsg M)))
    (hM : ∀ k, k < 12 → M' k i = M k i) :
    sendLoop 12 (rowMajor 12 12 M) (MPI_Type_vector 12 1 12) 0 (List.range 12) ⟨[], []⟩
        = some ⟨(List.range 12).map (columnMsg M), (List.range 12).map (fun d => Event.send d 0)⟩
    ∧ matchMsg view 0 0 i = some ⟨0, i, 0, (List.range 12).map (fun k => M k i)⟩
    ∧ matchMsg view 0 0 i ≠ some (columnMsg M j)
    ∧ ((launchWith ⟨rowMajor 12 12 M, calls, fillEv⟩ 12 u deliver)[i]?).map Proc.received
        = some ((List.range 12).map (fun k => M k i))
    ∧ ((launchWith ⟨rowMajor 12 12 M', calls', fillEv'⟩ 12 u' deliver')[i]?).map Proc.received
        = ((launchWith ⟨rowMajor 12 12 M, calls, fillEv⟩ 12 u deliver)[i]?).map Proc.received
    ∧ ((List.range 12).map (fun k => M k j) ≠ (List.range 12).map (fun k => M k i) →
        ((launchWith ⟨rowMajor 12 12 M, calls, fillEv⟩ 12 u deliver)[i]?).map Proc.received
          ≠ some ((List.range 12).map (fun k => M k j))) := by
  have hmatch := matchMsg_perm M view (List.range 12) i hview (List.mem_range.mpr hi)
  have hrun : ((launchWith ⟨rowMajor 12 12 M, calls, fillEv⟩ 12 u deliver)[i]?).map Proc.received
      = some ((List.range 12).map (fun k => M k i)) := by
    rw [launchWith_12_get _ M u deliver rfl hd i hi]
    rfl
  have hrun' : ((launchWith ⟨rowMajor 12 12 M', calls', fillEv'⟩ 12 u' deliver')[i]?).map
      Proc.received = some ((List.range 12).map (fun k => M' k i)) := by
    rw [launchWith_12_get _ M' u' deliver' rfl hd' i hi]
    rfl
  refine ⟨?_, hmatch, ?_, hrun, ?_, ?_⟩
  · rw [sendLoop_ok M (List.range 12) (fun d hd => List.mem_range.mp hd)]
    rfl
  · rw [hmatch]
    intro h
    have hdest : (columnMsg M i).dest = (columnMsg M j).dest := by rw [Option.some.inj h]
    exact hij hdest.symm
  · rw [hrun, hrun']
    congr 1
    apply List.map_congr_left
    intro k hk
    exact hM k (List.mem_range.mp hk)
  · intro hne h
    rw [hrun] at h
    exact hne (Option.some.inj h).symm

theorem no_cross_talk_witness :
    sendLoop 12 (rowMajor 12 12 rampMatrix) (MPI_Type_vector 12 1 12) 0 (List.range 12) ⟨[], []⟩
        = some ⟨(List.range 12).map (columnMsg rampMatrix),
            (List.range 12).map (fun d => Event.send d 0)⟩
    ∧ matchMsg ((List.range 12).map (columnMsg rampMatrix)).reverse 0 0 3
        = some ⟨0, 3, 0, (List.range 12).map (fun k => rampMatrix k 3)⟩
    ∧ matchMsg ((List.range 12).map (columnMsg rampMatrix)).reverse 0 0 3
        ≠ some (columnMsg rampMatrix 4)
    ∧ ((launchWith ⟨rowMajor 12 12 rampMatrix, 0, []⟩ 12 zeroIndet List.reverse)[3]?).map
        Proc.received = some ((List.range 12).map (fun k => rampMatrix k 3))
    ∧ ((launchWith ⟨rowMajor 12 12 rampColumn3, 0, []⟩ 12 zeroIndet id)[3]?).map Proc.received
        = ((launchWith ⟨rowMajor 12 12 rampMatrix, 0, []⟩ 12 zeroIndet List.reverse)[3]?).map
            Proc.received
    ∧ ((List.range 12).map (fun k => rampMatrix k 4)
          ≠ (List.range 12).map (fun k => rampMatrix k 3) →
        ((launchWith ⟨rowMajor 12 12 rampMatrix, 0, []⟩ 12 zeroIndet List.reverse)[3]?).map
          Proc.received ≠ some ((List.range 12).map (fun k => rampMatrix k 4))) :=
  no_cross_talk rampMatrix rampColumn3 0 0 [] [] zeroIndet zeroIndet List.reverse id
    (fun l => List.reverse_perm l) (fun l => List.Perm.refl l)
    ((List.range 12).map (columnMsg rampMatrix)).reverse 3 4 (by decide) (by decide)
    (List.reverse_perm _) (fun _ _ => rfl)

/-- C6, determinism of shape: two runs with 12 processes in which `rand()`
yields the same first 144 values build the same matrix on root and leave, in
every rank `i < 12`, the same (completely received) buffer, whatever the
uninitialised memory and the delivery order of either run. -/
theorem deterministic_shape (rnd rnd' : Nat → Int) (u u' : Nat → Indet)
    (deliver deliver' : List Msg → List Msg)
    (hd : ∀ l, (deliver l).Perm l) (hd' : ∀ l, (deliver' l).Perm l)
    (hseed : ∀ k, k < 144 → rnd k = rnd' k) (i : Nat) (hi : i < 12) :
    (fillMatrix rnd (u 0).vec).vec = (fillMatrix rnd' (u' 0).vec).vec
    ∧ ((launch rnd 12 u deliver)[i]?).map Proc.received
        = ((launch rnd' 12 u' deliver')[i]?).map Proc.received
    ∧ ∃ buf, ((launch rnd 12 u deliver)[i]?).map Proc.received = some buf
        ∧ buf.length = 12 := by
  have hval : ∀ k, k < 144 → fillValue rnd k = fillValue rnd' k := by
    intro k hk
    unfold fillValue
    rw [hseed k hk]
  have hcol : column 12 (randMatrix rnd) i = column 12 (randMatrix rnd') i := by
    apply List.map_congr_left
    intro k hk
    rw [List.mem_range] at hk
    exact hval (k * 12 + i) (by omega)
  refine ⟨?_, ?_, column 12 (randMatrix rnd) i, ?_, column_length 12 _ i⟩
  · rw [fillMatrix_vec, fillMatrix_vec]
    apply List.map_congr_left
    intro k hk
    exact hval k (List.mem_range.mp hk)
  · rw [launch_12_get rnd u deliver hd i hi, launch_12_get rnd' u' deliver' hd' i hi]
    show some (column 12 (randMatrix rnd) i) = some (column 12 (randMatrix rnd') i)
    rw [hcol]
  · rw [launch_12_get rnd u deliver hd i hi]
    rfl

theorem deterministic_shape_witness :
    (fillMatrix rampStream (zeroIndet 0).vec).vec
        = (fillMatrix (fun k => if k < 144 then rampStream k else 7) (zeroIndet 0).vec).vec
    ∧ ((launch rampStream 12 zeroIndet id)[2]?).map Proc.received
        = ((launch (fun k => if k < 144 then rampStream k else 7) 12 zeroIndet
            List.reverse)[2]?).map Proc.received
    ∧ ∃ buf, ((launch rampStream 12 zeroIndet id)[2]?).map Proc.received = some buf
        ∧ buf.length = 12 :=
  deterministic_shape rampStream (fun k => if k < 144 then rampStream k else 7) zeroIndet
    zeroIndet id List.reverse (fun l => List.Perm.refl l) (fun l => List.reverse_perm l)
    (fun k hk => by simp [hk]) 2 (by decide)

/-- C7, matrix fill range: when every value returned by `rand()` is
non-negative, the fill loops make 144 calls of `rand()` and store to the cells
0, 1, ..., 143 in this (row-major) order, each cell once; cell `vec[i][j]`
ends with `rand() % 1001` of the call number `i * 12 + j`, a value in
`[0, 1000]`; and every integer received by any rank lies in `[0, 1000]`. -/
theorem fill_range (rnd : Nat → Int) (hrnd : ∀ k, 0 ≤ rnd k) (u : Nat → Indet)
    (deliver : List Msg → List Msg) (hd : ∀ l, (deliver l).Perm l) (i j : Nat)
    (hi : i < 12) (hj : j < 12) :
    (fillMatrix rnd (u 0).vec).vec = (List.range 144).map (fun k => (rnd k).tmod 1001)
    ∧ storeOffsets (fillMatrix rnd (u 0).vec).events = List.range 144
    ∧ (fillMatrix rnd (u 0).vec).calls = 144
    ∧ cell (fillMatrix rnd (u 0).vec).vec i j = some ((rnd (i * 12 + j)).tmod 1001)
    ∧ 0 ≤ (rnd (i * 12 + j)).tmod 1001 ∧ (rnd (i * 12 + j)).tmod 1001 ≤ 1000
    ∧ ∃ buf, ((launch rnd 12 u deliver)[i]?).map Proc.received = some buf
        ∧ ∀ x, x ∈ buf → 0 ≤ x ∧ x ≤ 1000 := by
  refine ⟨fillMatrix_vec rnd _, ?_, fillMatrix_calls rnd _, ?_,
    (fillValue_range rnd hrnd _).1, (fillValue_range rnd hrnd _).2,
    column 12 (randMatrix rnd) i, ?_, ?_⟩
  · rw [fillMatrix_events, storeOffsets_fill]
  · rw [fillMatrix_rowMajor]
    exact rowMajor_getElem? 12 12 (randMatrix rnd) i j hi hj
  · rw [launch_12_get rnd u deliver hd i hi]
    rfl
  · intro x hx
    obtain ⟨k, _, rfl⟩ := List.mem_map.mp hx
    exact fillValue_range rnd hrnd _

theorem fill_range_witness :
    (fillMatrix rampStream (zeroIndet 0).vec).vec
        = (List.range 144).map (fun k => (rampStream k).tmod 1001)
    ∧ storeOffsets (fillMatrix rampStream (zeroIndet 0).vec).events = List.range 144
    ∧ (fillMatrix rampStream (zeroIndet 0).vec).calls = 144
    ∧ cell (fillMatrix rampStream (zeroIndet 0).vec).vec 4 9
        = some ((rampStream (4 * 12 + 9)).tmod 1001)
    ∧ 0 ≤ (rampStream (4 * 12 + 9)).tmod 1001 ∧ (rampStream (4 * 12 + 9)).tmod 1001 ≤ 1000
    ∧ ∃ buf, ((launch rampStream 12 zeroIndet id)[4]?).map Proc.received = some buf
        ∧ ∀ x, x ∈ buf → 0 ≤ x ∧ x ≤ 1000 :=
  fill_range rampStream (fun k => Int.ofNat_nonneg k) zeroIndet id (fun l => List.Perm.refl l)
    4 9 (by decide) (by decide)

/-- C3, precondition enforcement: for every process count `size`, a process
aborts with `EXIT_FAILURE` (which is not zero) after printing the diagnostic
if and only if `size ≠ 12`.  When `size ≠ 12` the process does exactly
`MPI_Init`, `MPI_Comm_size`, the `printf` of the diagnostic and `MPI_Abort`:
no matrix cell is generated, no datatype is built, nothing is sent or received,
the transport is left as it was; and this is so for every rank of the launch. -/
theorem precondition_enforced (rnd : Nat → Int) (size my_rank : Nat) (u : Indet)
    (v : Nat → Indet) (deliver : List Msg → List Msg) (net : List Msg) :
    (((main rnd size my_rank u deliver net).1.status = Status.aborted EXIT_FAILURE
        ∧ Event.printf diagnostic [] ∈ (main rnd size my_rank u deliver net).1.events)
      ↔ size ≠ 12)
    ∧ EXIT_FAILURE ≠ 0
    ∧ diagnostic = "This application is meant to be run with 12 processes.\n"
    ∧ (size ≠ 12 →
        (main rnd size my_rank u deliver net).1.events
            = [Event.init, Event.commSize, Event.printf diagnostic [],
                Event.abort EXIT_FAILURE]
          ∧ (main rnd size my_rank u deliver net).2 = net
          ∧ (∀ e, e ∈ (main rnd size my_rank u deliver net).1.events → e.isDataOp = false)
          ∧ (launch rnd size v deliver).length = size
          ∧ ∀ p, p ∈ launch rnd size v deliver →
              p.status = Status.aborted EXIT_FAILURE ∧ ∀ e, e ∈ p.events → e.isDataOp = false) := by
  refine ⟨?_, by decide, rfl, ?_⟩
  · constructor
    · rintro ⟨hst, _⟩ hsize
      subst hsize
      exact mainWith_12_status _ my_rank u deliver net EXIT_FAILURE hst
    · intro h
      unfold main
      rw [mainWith_abort _ size my_rank u deliver net h]
      exact ⟨rfl, by simp⟩
  · intro h
    have hm : main rnd size my_rank u deliver net
        = (⟨Status.aborted EXIT_FAILURE,
            [Event.init, Event.commSize, Event.printf diagnostic [], Event.abort EXIT_FAILURE],
            []⟩, net) := mainWith_abort _ size my_rank u deliver net h
    have hl : launch rnd size v deliver
        = (List.range size).map (fun _ => ⟨Status.aborted EXIT_FAILURE,
            [Event.init, Event.commSize, Event.printf diagnostic [], Event.abort EXIT_FAILURE],
            []⟩) := by
      unfold launch main
      rw [runRanks_abort (fun r => fillMatrix rnd (v r).vec) size v deliver h]
      rfl
    rw [hm, hl]
    refine ⟨rfl, rfl, ?_, by simp, ?_⟩
    · intro e he
      simp only [List.mem_cons, List.mem_singleton, List.not_mem_nil, or_false] at he
      rcases he with rfl | rfl | rfl | rfl <;> rfl
    · intro p hp
      obtain ⟨_, _, rfl⟩ := List.mem_map.mp hp
      refine ⟨rfl, ?_⟩
      intro e he
      simp only [List.mem_cons, List.mem_singleton, List.not_mem_nil, or_false] at he
      rcases he with rfl | rfl | rfl | rfl <;> rfl

/-- C8, the summary is not derived from data: in a launch with 12 processes
the only integer root prints after `MAX:` is the initial content of
`global_max`, for every stream of `rand()` and for every matrix put in place
of the random fill, so it does not depend on the matrix or on the received
column; the other ranks print no summary; and with `M[i][j] = i * 12 + j` and
`global_max` initially 0 root prints 0 although the maximum of its received
column is 132. -/
theorem summary_not_derived (rnd : Nat → Int) (M : Nat → Nat → Int) (calls : Nat)
    (u : Nat → Indet) (deliver : List Msg → List Msg) (hd : ∀ l, (deliver l).Perm l)
    (i : Nat) (hi : i < 12) (hi0 : i ≠ 0) :
    ((launch rnd 12 u deliver)[0]?).map (fun p => printedSummary p.events)
        = some [(u 0).global_max]
    ∧ ((launchWith ⟨rowMajor 12 12 M, calls, []⟩ 12 u deliver)[0]?).map
        (fun p => printedSummary p.events) = some [(u 0).global_max]
    ∧ ((launch rnd 12 u deliver)[i]?).map (fun p => printedSummary p.events) = some []
    ∧ ((launchWith ⟨rowMajor 12 12 rampMatrix, calls, []⟩ 12 zeroIndet deliver)[0]?).map
        (fun p => (printedSummary p.events, maxOf p.received)) = some ([0], some 132) := by
  have hroot : ∀ (fillEv : List Event) (N : Nat → Nat → Int) (v : Nat → Indet),
      printedSummary fillEv = [] →
      printedSummary (completed N fillEv v 0).events = [(v 0).global_max] := by
    intro fillEv N v h
    exact printedSummary_root fillEv (v 0).global_max h
  refine ⟨?_, ?_, ?_, ?_⟩
  · rw [launch_12_get rnd u deliver hd 0 (by decide)]
    show some (printedSummary (completed _ _ u 0).events) = _
    rw [hroot _ _ u (by rw [fillMatrix_events]; exact printedSummary_fill rnd _)]
  · rw [launchWith_12_get _ M u deliver rfl hd 0 (by decide)]
    show some (printedSummary (completed _ _ u 0).events) = _
    rw [hroot [] M u rfl]
  · rw [launch_12_get rnd u deliver hd i hi]
    show some (printedSummary (completed _ _ u i).events) = _
    simp only [completed, hi0, if_false]
    rfl
  · rw [launchWith_12_get _ rampMatrix zeroIndet deliver rfl hd 0 (by decide)]
    show some (printedSummary (completed _ _ zeroIndet 0).events,
      maxOf (column 12 rampMatrix 0)) = _
    rw [hroot [] rampMatrix zeroIndet rfl]
    decide

theorem summary_not_derived_witness :
    ((launch rampStream 12 zeroIndet id)[0]?).map (fun p => printedSummary p.events)
        = some [(zeroIndet 0).global_max]
    ∧ ((launchWith ⟨rowMajor 12 12 rampColumn3, 0, []⟩ 12 zeroIndet id)[0]?).map
        (fun p => printedSummary p.events) = some [(zeroIndet 0).global_max]
    ∧ ((launch rampStream 12 zeroIndet id)[6]?).map (fun p => printedSummary p.events) = some []
    ∧ ((launchWith ⟨rowMajor 12 12 rampMatrix, 0, []⟩ 12 zeroIndet id)[0]?).map
        (fun p => (printedSummary p.events, maxOf p.received)) = some ([0], some 132) :=
  summary_not_derived rampStream rampColumn3 0 zeroIndet id (fun l => List.Perm.refl l) 6
    (by decide) (by decide)

/-- C9, payload and buffer size agreement: for every positive process count
`size`, the receive count `n = 144 / size` equals the number of integers of one
message (`size` blocks of length 1) if and only if `size = 12`; a process that
is not aborted by the size check has `n = 12` and a buffer `received` of 12
integers; each of the 12 messages of root carries 12 integers; and in a launch
with 12 processes every rank completes its receive, with 12 integers. -/
theorem count_agreement (size : Nat) (hpos : 0 < size) (rnd : Nat → Int) (my_rank : Nat)
    (u : Indet) (v : Nat → Indet) (deliver : List Msg → List Msg)
    (hd : ∀ l, (deliver l).Perm l) (net : List Msg) (M : Nat → Nat → Int) (i : Nat)
    (hi : i < 12) :
    (recvCount size = (MPI_Type_vector size 1 size).typemap.length ↔ size = 12)
    ∧ (MPI_Type_vector size 1 size).typemap.length = size
    ∧ ((main rnd size my_rank u deliver net).1.status ≠ Status.aborted EXIT_FAILURE →
        recvCount size = 12 ∧ (main rnd size my_rank u deliver net).1.received.length = 12)
    ∧ (∃ s, sendLoop 12 (rowMajor 12 12 M) (MPI_Type_vector 12 1 12) 0 (List.range 12) ⟨[], []⟩
          = some s
        ∧ s.net.length = 12 ∧ ∀ m, m ∈ s.net → m.payload.length = recvCount 12)
    ∧ ∃ p, (launch rnd 12 v deliver)[i]? = some p ∧ p.status = Status.exited EXIT_SUCCESS
        ∧ p.received.length = recvCount 12 := by
  have hlen : (MPI_Type_vector size 1 size).typemap.length = size := by
    rw [typemap_length, Nat.mul_one]
  refine ⟨?_, hlen, ?_, ?_, ?_⟩
  · rw [hlen]
    exact recvCount_eq_iff size hpos
  · intro hst
    have hsize : size = 12 := by
      by_contra hne
      apply hst
      unfold main
      rw [mainWith_abort _ size my_rank u deliver net hne]
    subst hsize
    exact ⟨rfl, mainWith_12_length _ my_rank u deliver net⟩
  · refine ⟨_, sendLoop_ok M (List.range 12) (fun d hd => List.mem_range.mp hd) ⟨[], []⟩, ?_, ?_⟩
    · simp
    · intro m hm
      simp only [List.nil_append, List.mem_map] at hm
      obtain ⟨d, _, rfl⟩ := hm
      exact column_length 12 M d
  · refine ⟨_, launch_12_get rnd v deliver hd i hi, rfl, ?_⟩
    exact column_length 12 _ i

theorem count_agreement_witness :
    (recvCount 11 = (MPI_Type_vector 11 1 11).typemap.length ↔ 11 = 12)
    ∧ (MPI_Type_vector 11 1 11).typemap.length = 11
    ∧ ((main rampStream 11 1 (zeroIndet 1) id []).1.status ≠ Status.aborted EXIT_FAILURE →
        recvCount 11 = 12 ∧ (main rampStream 11 1 (zeroIndet 1) id []).1.received.length = 12)
    ∧ (∃ s, sendLoop 12 (rowMajor 12 12 rampMatrix) (MPI_Type_vector 12 1 12) 0 (List.range 12)
          ⟨[], []⟩ = some s
        ∧ s.net.length = 12 ∧ ∀ m, m ∈ s.net → m.payload.length = recvCount 12)
    ∧ ∃ p, (launch rampStream 12 zeroIndet id)[8]? = some p
        ∧ p.status = Status.exited EXIT_SUCCESS ∧ p.received.length = recvCount 12 :=
  count_agreement 11 (by decide) rampStream 1 (zeroIndet 1) zeroIndet id
    (fun l => List.Perm.refl l) [] rampMatrix 8 (by decide)

/-- C10, in-bounds strided access: with 12 processes, the send number `i < 12`
reads the flat offsets `i + k * 12`, `k < 12`; each of them is below 144, so on
a matrix of 144 cells every read succeeds and the pack returns a payload; the
map `(i, k) ↦ i + k * 12` is injective on `[0,12) × [0,12)` and onto `[0,144)`,
and the offsets read by the 12 sends together are a permutation of
`0, ..., 143`: every cell is carried exactly once. -/
theorem strided_in_bounds (vec : List Int) (hvec : vec.length = 144) (i k : Nat)
    (hi : i < 12) (hk : k < 12) :
    selected (0 * 12 + i) (MPI_Type_vector 12 1 12) = (List.range 12).map (fun k => i + k * 12)
    ∧ i + k * 12 < 144
    ∧ (vec[i + k * 12]?).isSome = true
    ∧ (∀ o, o ∈ selected (0 * 12 + i) (MPI_Type_vector 12 1 12) → o < 144)
    ∧ (pack vec (0 * 12 + i) (MPI_Type_vector 12 1 12)).isSome = true
    ∧ (∀ i' k', i' < 12 → k' < 12 → i + k * 12 = i' + k' * 12 → i = i' ∧ k = k')
    ∧ (∀ o, o < 144 → ∃ i' k', i' < 12 ∧ k' < 12 ∧ i' + k' * 12 = o)
    ∧ ((List.range 12).flatMap
        (fun d => selected (0 * 12 + d) (MPI_Type_vector 12 1 12))).Perm (List.range 144) := by
  have hsel : selected (0 * 12 + i) (MPI_Type_vector 12 1 12)
      = (List.range 12).map (fun k => i + k * 12) := by
    rw [selected_block1, Nat.zero_mul, Nat.zero_add]
  have hbound : ∀ o, o ∈ selected (0 * 12 + i) (MPI_Type_vector 12 1 12) → o < 144 := by
    intro o ho
    rw [hsel] at ho
    obtain ⟨k', hk', rfl⟩ := List.mem_map.mp ho
    rw [List.mem_range] at hk'
    omega
  refine ⟨hsel, by omega, ?_, hbound, ?_, ?_, ?_, by decide⟩
  · rw [List.getElem?_eq_getElem (by omega)]
    rfl
  · unfold pack
    exact readAll_isSome vec _ (fun o ho => by rw [hvec]; exact hbound o ho)
  · intro i' k' hi' hk' h
    omega
  · intro o ho
    exact ⟨o % 12, o / 12, by omega, by omega, by omega⟩

theorem strided_in_bounds_witness :
    selected (0 * 12 + 11) (MPI_Type_vector 12 1 12)
        = (List.range 12).map (fun k => 11 + k * 12)
    ∧ 11 + 11 * 12 < 144
    ∧ ((rowMajor 12 12 rampMatrix)[11 + 11 * 12]?).isSome = true
    ∧ (∀ o, o ∈ selected (0 * 12 + 11) (MPI_Type_vector 12 1 12) → o < 144)
    ∧ (pack (rowMajor 12 12 rampMatrix) (0 * 12 + 11) (MPI_Type_vector 12 1 12)).isSome = true
    ∧ (∀ i' k', i' < 12 → k' < 12 → 11 + 11 * 12 = i' + k' * 12 → 11 = i' ∧ 11 = k')
    ∧ (∀ o, o < 144 → ∃ i' k', i' < 12 ∧ k' < 12 ∧ i' + k' * 12 = o)
    ∧ ((List.range 12).flatMap
        (fun d => selected (0 * 12 + d) (MPI_Type_vector 12 1 12))).Perm (List.range 144) :=
  strided_in_bounds (rowMajor 12 12 rampMatrix) (rowMajor_length 12 12 rampMatrix) 11 11
    (by decide) (by decide)

theorem precondition_enforced_witness :
    (main rampStream 3 0 (zeroIndet 0) id []).1.events
        = [Event.init, Event.commSize, Event.printf diagnostic [], Event.abort EXIT_FAILURE]
    ∧ (main rampStream 3 0 (zeroIndet 0) id []).2 = []
    ∧ (∀ e, e ∈ (main rampStream 3 0 (zeroIndet 0) id []).1.events → e.isDataOp = false)
    ∧ (launch rampStream 3 zeroIndet id).length = 3
    ∧ ∀ p, p ∈ launch rampStream 3 zeroIndet id →
        p.status = Status.aborted EXIT_FAILURE ∧ ∀ e, e ∈ p.events → e.isDataOp = false :=
  (precondition_enforced rampStream 3 0 (zeroIndet 0) zeroIndet id []).2.2.2 (by decide)

end VectorTypeW15
